import Mathlib

/-!
Shallow embedding of the mtg_price_checker repository's price-check
reconciliation pass and its neighbouring endpoints, with theorems
settling the specification's claims about them.

Sources embedded:
  * `src/app/api/cron/check-prices/route.ts` (the reconciliation pass)
  * `src/app/api/cron/check-alerts/route.ts` (`checkAlert`)
  * `src/lib/ebay-auth.ts` (`getEbayToken`, `getEbayAccessToken`)
  * `src/lib/watchlist-storage.ts` (`getAllWatchlistItems`, `addWatchlistItem`)
  * the two subscription-registration handlers (Redis upsert / file append)
  * `src/app/api/watchlist/save/route.ts` (`POST` validation)

Prices are modelled as integers (the sources parse decimal strings and
compare them; only the ordering matters to the properties below).
External I/O (file reads, HTTP fetches, the OAuth exchange, the push
transport) is modelled as explicit parameters and an event trace.
-/

namespace MtgPriceChecker

/-- Watch scope, `'specific' | 'any'` in `watchlist-storage.ts`. -/
inductive Scope
  | specific
  | anyPrint
deriving DecidableEq, Repr

/-- `WatchlistItem` from `src/lib/watchlist-storage.ts`. -/
structure WatchlistItem where
  id : String
  cardName : String
  cardId : String
  targetPrice : Int
  scope : Scope
  setName : Option String
  collectorNumber : Option String
  createdAt : String
deriving DecidableEq, Repr

/-- One eBay item summary as consumed by the cron routes. -/
structure Listing where
  itemId : String
  title : String
  price : Int
  itemWebUrl : String
deriving DecidableEq, Repr

/-- `Subscription` from `check-prices/route.ts` (keys flattened). -/
structure Subscription where
  endpoint : String
  p256dh : String
  auth : String
  createdAt : Option String
deriving DecidableEq, Repr

/-- `NotificationHistory` from `check-prices/route.ts`. -/
structure NotificationHistory where
  watchlistItemId : String
  lastNotifiedListingId : String
  lastNotifiedAt : String
deriving DecidableEq, Repr

/-- The notification-history JSON object: an association list keyed by
watchlist-item id (JS object keys are unique; insertion replaces). -/
abbrev HistMap := List (String × NotificationHistory)

/-- Lookup of `notificationHistory[key]`. -/
def histLookup (m : HistMap) (k : String) : Option NotificationHistory :=
  match m with
  | [] => none
  | (k', v) :: rest => if k' = k then some v else histLookup rest k

/-- Assignment `notificationHistory[key] = v` (replace or append). -/
def histInsert (m : HistMap) (k : String) (v : NotificationHistory) : HistMap :=
  match m with
  | [] => [(k, v)]
  | (k', v') :: rest => if k' = k then (k, v) :: rest else (k', v') :: histInsert rest k v

/-- Observable side effects of one reconciliation pass: each loop
iteration performs one marketplace search; a qualifying new listing
fans out one push dispatch per subscription; the pass may write the
three persistent documents (the code only ever writes the history). -/
inductive Event
  | search (itemId : String)
  | dispatch (endpoint : String) (itemId : String) (listingId : String)
  | writeHistory
  | writeWatchlist
  | writeSubscriptions
deriving DecidableEq, Repr

def Event.isDispatch : Event → Bool
  | .dispatch _ _ _ => true
  | _ => false

def Event.isSearch : Event → Bool
  | .search _ => true
  | _ => false

def Event.isWrite : Event → Bool
  | .writeHistory => true
  | .writeWatchlist => true
  | .writeSubscriptions => true
  | _ => false

/-- The persistent state the pass can see: `watchlist.json`,
`subscriptions.json`, `notification-history.json`. -/
structure Store where
  watchlist : List WatchlistItem
  subscriptions : List Subscription
  history : HistMap
deriving DecidableEq, Repr

/-- `listings.reduce((lowest, current) => currentPrice < lowestPrice ?
current : lowest)` — JS `reduce` without seed starts from the head. -/
def lowestListing (l : Listing) (ls : List Listing) : Listing :=
  ls.foldl (fun lowest current => if current.price < lowest.price then current else lowest) l

/-- Accumulator of the `for (const item of watchlistItems)` loop. -/
structure PassState where
  checked : Nat
  notified : Nat
  errors : List String
  history : HistMap
  events : List Event
deriving DecidableEq, Repr

/-- The body of the per-item loop in `GET /api/cron/check-prices`
(lines 214–276): count the item as checked, search eBay, pick the
cheapest listing, compare strictly against the target price, consult
the notification history, fan out dispatches and record the listing;
any thrown error is caught and pushed onto `errors`. -/
def processItem (search : WatchlistItem → Except String (List Listing)) (now : String)
    (subscriptions : List Subscription) (st : PassState) (item : WatchlistItem) : PassState :=
  let st := { st with checked := st.checked + 1, events := st.events ++ [Event.search item.id] }
  match search item with
  | .error msg =>
      { st with errors := st.errors ++ ["Error checking " ++ item.cardName ++ ": " ++ msg] }
  | .ok [] => st
  | .ok (l :: ls) =>
      let lowest := lowestListing l ls
      if lowest.price < item.targetPrice then
        let alreadyNotified : Bool :=
          match histLookup st.history item.id with
          | some h => h.lastNotifiedListingId == lowest.itemId
          | none => false
        if alreadyNotified then st
        else
          { st with
            events := st.events ++
              subscriptions.map (fun s => Event.dispatch s.endpoint item.id lowest.itemId),
            history := histInsert st.history item.id
              { watchlistItemId := item.id
                lastNotifiedListingId := lowest.itemId
                lastNotifiedAt := now },
            notified := st.notified + 1 }
      else st

/-- Result of `GET /api/cron/check-prices`: the JSON summary fields,
the persistent state after the pass, and the emitted side effects. -/
structure RunOutput where
  checked : Nat
  notified : Nat
  errors : List String
  message : Option String
  store : Store
  events : List Event
deriving DecidableEq, Repr

/-- `GET /api/cron/check-prices` (lines 188–286), after the secret
check: load the three documents, short-circuit on an empty watchlist
or empty subscription list, otherwise run the loop and save the
updated notification history once at the end. -/
def checkPricesRun (search : WatchlistItem → Except String (List Listing)) (now : String)
    (store : Store) : RunOutput :=
  if store.watchlist = [] then
    { checked := 0, notified := 0, errors := [],
      message := some "No items in watchlist", store := store, events := [] }
  else if store.subscriptions = [] then
    { checked := 0, notified := 0, errors := [],
      message := some "No push notification subscriptions found", store := store, events := [] }
  else
    let final := store.watchlist.foldl (processItem search now store.subscriptions)
      { checked := 0, notified := 0, errors := [], history := store.history, events := [] }
    { checked := final.checked, notified := final.notified, errors := final.errors,
      message := none,
      store := { store with history := final.history },
      events := final.events ++ [Event.writeHistory] }

/-- Token-exchange outcome of `getEbayToken` in `src/lib/ebay-auth.ts`
(the HTTP response is a parameter: `ok` carries `access_token`,
`error` the `error_description`). -/
inductive TokenResult
  | success (token : String)
  | failure (error : String)
deriving DecidableEq, Repr

/-- `getEbayToken` (ebay-auth.ts lines 10–46): performs the client
credentials exchange and wraps the outcome; it maintains no cache. -/
def getEbayToken (exchange : Except String String) : TokenResult :=
  match exchange with
  | .ok accessToken => .success accessToken
  | .error desc => .failure desc

/-- JS truthiness of an optional string (`undefined` and `""` falsy). -/
def strTruthy : Option String → Bool
  | none => false
  | some s => s != ""

/-- Query construction in `searchEbayBuyItNow` (lines 90–97). -/
def buildSearchQuery (cardName : String) (setName collectorNumber : Option String) : String :=
  let q := cardName
  let q := if strTruthy setName then q ++ " " ++ setName.getD "" else q
  if strTruthy collectorNumber then q ++ " " ++ collectorNumber.getD "" else q

/-- `searchEbayBuyItNow` (check-prices lines 83–127): throws when no
token is available, otherwise fetches listings for the built query
(the fetch outcome, including `eBay API error` throws, is the
`fetchListings` parameter). -/
def searchEbayBuyItNow (tokenResult : TokenResult)
    (fetchListings : String → Except String (List Listing))
    (cardName : String) (setName collectorNumber : Option String) :
    Except String (List Listing) :=
  match tokenResult with
  | .failure e => .error ("Failed to get eBay token: " ++ e)
  | .success _ => fetchListings (buildSearchQuery cardName setName collectorNumber)

/-- The search the cron loop performs for one watch item. -/
def cronSearch (tokenResult : TokenResult)
    (fetchListings : String → Except String (List Listing)) :
    WatchlistItem → Except String (List Listing) :=
  fun item => searchEbayBuyItNow tokenResult fetchListings
    item.cardName item.setName item.collectorNumber

/-- Outcome of one `fs.readFile` as the loaders distinguish it. -/
inductive FsReadResult (α : Type)
  | ok (value : α)
  | enoent
  | otherError (msg : String)
deriving DecidableEq, Repr

/-- `getAllWatchlistItems` (watchlist-storage.ts lines 34–47): missing
file and any other read error both yield the empty list. -/
def getAllWatchlistItems : FsReadResult (List WatchlistItem) → List WatchlistItem
  | .ok items => items
  | .enoent => []
  | .otherError _ => []

/-- `loadSubscriptions` (check-prices lines 66–78): missing file and
any other read error both yield the empty list. -/
def loadSubscriptions : FsReadResult (List Subscription) → List Subscription
  | .ok subs => subs
  | .enoent => []
  | .otherError _ => []

/-- `loadNotificationHistory` (check-prices lines 43–54). -/
def loadNotificationHistory : FsReadResult HistMap → HistMap
  | .ok h => h
  | .enoent => []
  | .otherError _ => []

/-- `PriceAlert` from the alert-storage module (the second segment of
`src/lib/scryfall.ts`, lines 421–432), which `check-alerts/route.ts`
imports as `@/lib/alert-storage`. -/
structure PriceAlert where
  id : String
  cardName : String
  targetPrice : Int
  scope : Scope
  setId : Option String
  setName : Option String
  collectorNumber : Option String
  createdAt : String
  triggered : Bool
  triggeredAt : Option String
deriving DecidableEq, Repr

/-- The object `{listing, alert, price}` returned by `checkAlert`. -/
structure AlertMatch where
  listing : Listing
  alert : PriceAlert
  price : Int
deriving DecidableEq, Repr

/-- `checkAlert` (check-alerts lines 72–84): first listing whose price
is ≤ the target (inclusive) wins; with integer prices the `isNaN`
guard is vacuous. -/
def checkAlert (alert : PriceAlert) (listings : List Listing) : Option AlertMatch :=
  match listings with
  | [] => none
  | listing :: rest =>
      if listing.price ≤ alert.targetPrice then
        some { listing := listing, alert := alert, price := listing.price }
      else checkAlert alert rest

/-- The module-level `cachedToken` / `tokenExpiry` pair of the cached
variant of `ebay-auth.ts` (lines 67–68). -/
structure TokenCache where
  cachedToken : Option String
  tokenExpiry : Int
deriving DecidableEq, Repr

/-- Outcome of the OAuth fetch inside `getEbayAccessToken`: success
carries `access_token` and `expires_in` (seconds), failure the thrown
error message. -/
inductive OAuthOutcome
  | ok (accessToken : String) (expiresIn : Int)
  | err (msg : String)
deriving DecidableEq, Repr

instance {ε α : Type} [DecidableEq ε] [DecidableEq α] : DecidableEq (Except ε α) := fun
  | .ok a, .ok b =>
      if h : a = b then .isTrue (by rw [h]) else .isFalse (by simp [h])
  | .ok _, .error _ => .isFalse (by simp)
  | .error _, .ok _ => .isFalse (by simp)
  | .error a, .error b =>
      if h : a = b then .isTrue (by rw [h]) else .isFalse (by simp [h])

/-- What a call to `getEbayAccessToken` yields: the returned token or
thrown error, the cache afterwards, and whether an exchange happened. -/
structure TokenFetchResult where
  result : Except String String
  cache : TokenCache
  performedExchange : Bool
deriving DecidableEq, Repr

/-- The `try` block of `getEbayAccessToken` (ebay-auth.ts lines
84–118): on success cache the token with expiry `now + (expires_in -
60) * 1000`; on failure clear the cache and rethrow. -/
def ebayTokenExchange (now : Int) (exchange : OAuthOutcome) : TokenFetchResult :=
  match exchange with
  | .ok tok expiresIn =>
      { result := .ok tok,
        cache := { cachedToken := some tok, tokenExpiry := now + (expiresIn - 60) * 1000 },
        performedExchange := true }
  | .err m =>
      { result := .error m,
        cache := { cachedToken := none, tokenExpiry := 0 },
        performedExchange := true }

/-- `getEbayAccessToken` (ebay-auth.ts lines 76–119): return the
cached token when `cachedToken && tokenExpiry > now`, otherwise run
the exchange. -/
def getEbayAccessToken (st : TokenCache) (now : Int) (exchange : OAuthOutcome) :
    TokenFetchResult :=
  match st.cachedToken with
  | some t =>
      if st.tokenExpiry > now then
        { result := .ok t, cache := st, performedExchange := false }
      else ebayTokenExchange now exchange
  | none => ebayTokenExchange now exchange

/-- Redis-backed `POST /api/subscribe` core (after validation): find
an existing subscription with the same endpoint; replace it, else
append (`findIndex` / `subscriptions[existingIndex] = ...` / `push`). -/
def upsertSubscription (subs : List Subscription) (incoming : Subscription) (now : String) :
    List Subscription :=
  let withTimestamp := { incoming with createdAt := some now }
  match subs.findIdx? (fun sub => sub.endpoint == incoming.endpoint) with
  | some i => subs.set i withTimestamp
  | none => subs ++ [withTimestamp]

/-- File-backed `POST /api/subscribe` core (after validation): always
`subscriptions.push({...subscription, createdAt})`. -/
def appendSubscription (subs : List Subscription) (incoming : Subscription) (now : String) :
    List Subscription :=
  subs ++ [{ incoming with createdAt := some now }]

/-- Raw JSON body of `POST /api/watchlist/save` (fields may be
absent; numbers modelled as integers). -/
structure SaveBody where
  cardName : Option String
  cardId : Option String
  targetPrice : Option Int
  scope : Option String
  setName : Option String
  collectorNumber : Option String
deriving DecidableEq, Repr

/-- `!s || s.trim() === ''` for an optional string field. -/
def strBlank : Option String → Bool
  | none => true
  | some s => s.trim == ""

/-- `!s` for an optional string field. -/
def strFalsy : Option String → Bool
  | none => true
  | some s => s == ""

/-- `!targetPrice || targetPrice <= 0` for the optional number. -/
def numFalsyOrNonpos : Option Int → Bool
  | none => true
  | some n => n ≤ 0

/-- Response of `POST /api/watchlist/save`. -/
inductive SaveResponse
  | badRequest (error : String)
  | ok (items : List WatchlistItem) (item : WatchlistItem)
deriving DecidableEq, Repr

/-- `addWatchlistItem` (watchlist-storage.ts lines 65–75): append a
new item with a fresh id and timestamp and save the whole list. -/
def addWatchlistItem (items : List WatchlistItem) (newId now : String)
    (cardName cardId : String) (targetPrice : Int) (scope : Scope)
    (setName collectorNumber : Option String) : List WatchlistItem × WatchlistItem :=
  let newItem : WatchlistItem :=
    { id := newId, cardName := cardName, cardId := cardId, targetPrice := targetPrice,
      scope := scope, setName := setName, collectorNumber := collectorNumber,
      createdAt := now }
  (items ++ [newItem], newItem)

/-- `POST /api/watchlist/save` (save/route.ts lines 8–74): the chain
of validations, then `addWatchlistItem` with set name and collector
number kept only for the specific scope. -/
def watchlistSavePOST (body : SaveBody) (stored : List WatchlistItem) (newId now : String) :
    SaveResponse :=
  if strBlank body.cardName then .badRequest "Card name is required"
  else if strBlank body.cardId then .badRequest "Card ID is required"
  else if numFalsyOrNonpos body.targetPrice then
    .badRequest "Target price must be greater than 0"
  else if body.scope != some "specific" && body.scope != some "any" then
    .badRequest "Scope must be specific or any"
  else if body.scope == some "specific" &&
      (strFalsy body.setName || strFalsy body.collectorNumber) then
    .badRequest "Set name and collector number are required for specific scope"
  else
    let scope := if body.scope == some "specific" then Scope.specific else Scope.anyPrint
    let res := addWatchlistItem stored newId now
      (body.cardName.getD "") (body.cardId.getD "") (body.targetPrice.getD 0) scope
      (if scope == Scope.specific then body.setName else none)
      (if scope == Scope.specific then body.collectorNumber else none)
    .ok res.1 res.2

/-- `saveAlert` (price-alerts.ts lines 23–47): validation only; no
storage happens server-side. -/
def saveAlert (cardName : String) (targetPrice : Int) (scope : String)
    (setName collectorNumber : Option String) : Except String Unit :=
  if cardName.trim == "" then .error "Card name is required"
  else if targetPrice ≤ 0 then .error "Target price must be greater than 0"
  else if scope == "specific" && (strFalsy setName || strFalsy collectorNumber) then
    .error "Set name and collector number are required for specific version alerts"
  else .ok ()

/-- The data-model invariant of §3 of the spec for a stored item. -/
def watchItemInvariant (i : WatchlistItem) : Prop :=
  0 < i.targetPrice ∧
    (i.scope = Scope.specific → strFalsy i.setName = false ∧ strFalsy i.collectorNumber = false)

instance (i : WatchlistItem) : Decidable (watchItemInvariant i) := by
  unfold watchItemInvariant; infer_instance

/-- The diagnostic string the loop records for one item, when its
processing throws. -/
def itemError (search : WatchlistItem → Except String (List Listing))
    (item : WatchlistItem) : Option String :=
  match search item with
  | .error m => some ("Error checking " ++ item.cardName ++ ": " ++ m)
  | .ok _ => none

/-- Whether the marketplace search for an item succeeds. -/
def searchOk (search : WatchlistItem → Except String (List Listing))
    (item : WatchlistItem) : Bool :=
  match search item with
  | .ok _ => true
  | .error _ => false

/-- A history map already records the cheapest qualifying listing for
an item (the state in which the loop suppresses re-notification). -/
def settled (search : WatchlistItem → Except String (List Listing))
    (h : HistMap) (item : WatchlistItem) : Prop :=
  ∀ l ls, search item = .ok (l :: ls) →
    (lowestListing l ls).price < item.targetPrice →
    ∃ r, histLookup h item.id = some r ∧
      r.lastNotifiedListingId = (lowestListing l ls).itemId

/-! ### Helper lemmas about the per-item step -/

theorem histLookup_histInsert_self (m : HistMap) (k : String) (v : NotificationHistory) :
    histLookup (histInsert m k v) k = some v := by
  induction m with
  | nil => simp [histInsert, histLookup]
  | cons p rest ih =>
    by_cases h : p.1 = k
    · simp [histInsert, histLookup, h]
    · simp [histInsert, histLookup, h, ih]

theorem histLookup_histInsert_ne (m : HistMap) (k' k : String) (v : NotificationHistory)
    (h : k' ≠ k) : histLookup (histInsert m k' v) k = histLookup m k := by
  induction m with
  | nil => simp [histInsert, histLookup, h]
  | cons p rest ih =>
    by_cases hp : p.1 = k'
    · simp [histInsert, histLookup, hp, h]
    · simp only [histInsert, hp]
      by_cases hk : p.1 = k <;> simp [histLookup, hk, ih]

theorem processItem_checked (search : WatchlistItem → Except String (List Listing))
    (now : String) (subs : List Subscription) (st : PassState) (item : WatchlistItem) :
    (processItem search now subs st item).checked = st.checked + 1 := by
  unfold processItem
  cases hs : search item with
  | error msg => simp
  | ok ls =>
    cases ls with
    | nil => simp
    | cons l rest =>
      simp only []
      split
      · split <;> simp
      · simp

theorem processItem_errors (search : WatchlistItem → Except String (List Listing))
    (now : String) (subs : List Subscription) (st : PassState) (item : WatchlistItem) :
    (processItem search now subs st item).errors =
      st.errors ++ (itemError search item).toList := by
  unfold processItem itemError
  cases hs : search item with
  | error msg => simp
  | ok ls =>
    cases ls with
    | nil => simp
    | cons l rest =>
      simp only []
      split
      · split <;> simp
      · simp

theorem processItem_notified (search : WatchlistItem → Except String (List Listing))
    (now : String) (subs : List Subscription) (st : PassState) (item : WatchlistItem) :
    (processItem search now subs st item).notified = st.notified ∨
    ((processItem search now subs st item).notified = st.notified + 1 ∧
      searchOk search item = true) := by
  unfold processItem searchOk
  cases hs : search item with
  | error msg => left; simp
  | ok ls =>
    cases ls with
    | nil => left; simp
    | cons l rest =>
      simp only []
      split
      · split
        · left; simp
        · right; simp
      · left; simp

theorem processItem_events_shape (search : WatchlistItem → Except String (List Listing))
    (now : String) (subs : List Subscription) (st : PassState) (item : WatchlistItem) :
    (processItem search now subs st item).events = st.events ++ [Event.search item.id] ∨
    ∃ lid, (processItem search now subs st item).events =
      st.events ++ [Event.search item.id] ++
        subs.map (fun s => Event.dispatch s.endpoint item.id lid) := by
  unfold processItem
  cases hs : search item with
  | error msg => left; simp
  | ok ls =>
    cases ls with
    | nil => left; simp
    | cons l rest =>
      simp only []
      split
      · split
        · left; simp
        · right; exact ⟨(lowestListing l rest).itemId, by simp⟩
      · left; simp

theorem processItem_history_shape (search : WatchlistItem → Except String (List Listing))
    (now : String) (subs : List Subscription) (st : PassState) (item : WatchlistItem) :
    (processItem search now subs st item).history = st.history ∨
    ∃ l ls, search item = .ok (l :: ls) ∧
      (lowestListing l ls).price < item.targetPrice ∧
      (processItem search now subs st item).history =
        histInsert st.history item.id
          { watchlistItemId := item.id,
            lastNotifiedListingId := (lowestListing l ls).itemId,
            lastNotifiedAt := now } := by
  unfold processItem
  cases hs : search item with
  | error msg => left; simp
  | ok ls =>
    cases ls with
    | nil => left; simp
    | cons l rest =>
      simp only []
      split
      · split
        · left; simp
        · next hq _ => right; exact ⟨l, rest, rfl, hq, by simp⟩
      · left; simp

theorem processItem_settled (search : WatchlistItem → Except String (List Listing))
    (now : String) (subs : List Subscription) (st : PassState) (item : WatchlistItem)
    (h : settled search st.history item) :
    processItem search now subs st item =
      { st with checked := st.checked + 1,
                events := st.events ++ [Event.search item.id],
                errors := st.errors ++ (itemError search item).toList } := by
  unfold processItem itemError
  cases hs : search item with
  | error msg => simp
  | ok ls =>
    cases ls with
    | nil => simp
    | cons l rest =>
      simp only []
      split
      · next hq =>
        obtain ⟨r, hr, hid⟩ := h l rest hs hq
        rw [hr]
        simp [hid]
      · simp

theorem processItem_qualifying_lookup (search : WatchlistItem → Except String (List Listing))
    (now : String) (subs : List Subscription) (st : PassState) (item : WatchlistItem)
    (l : Listing) (ls : List Listing)
    (hs : search item = .ok (l :: ls))
    (hq : (lowestListing l ls).price < item.targetPrice) :
    ∃ r, histLookup (processItem search now subs st item).history item.id = some r ∧
      r.lastNotifiedListingId = (lowestListing l ls).itemId := by
  unfold processItem
  rw [hs]
  simp only []
  rw [if_pos hq]
  cases hh : histLookup st.history item.id with
  | none => simp [hh, histLookup_histInsert_self]
  | some r =>
    by_cases hb : r.lastNotifiedListingId = (lowestListing l ls).itemId
    · simp [hh, hb]
    · simp [hh, hb, histLookup_histInsert_self]

theorem foldl_history_untouched (search : WatchlistItem → Except String (List Listing))
    (now : String) (subs : List Subscription) (k : String) :
    ∀ (items : List WatchlistItem) (st : PassState),
    (∀ i ∈ items, i.id ≠ k) →
    histLookup ((items.foldl (processItem search now subs) st)).history k =
      histLookup st.history k := by
  intro items
  induction items with
  | nil => intro st _; rfl
  | cons i rest ih =>
    intro st h
    rw [List.foldl_cons, ih _ (fun j hj => h j (List.mem_cons_of_mem _ hj))]
    rcases processItem_history_shape search now subs st i with heq | ⟨l, ls, _, _, heq⟩
    · rw [heq]
    · rw [heq, histLookup_histInsert_ne _ _ _ _ (h i (List.mem_cons_self _ _))]

theorem foldl_settled_noop (search : WatchlistItem → Except String (List Listing))
    (now : String) (subs : List Subscription) :
    ∀ (items : List WatchlistItem) (st : PassState),
    (∀ i ∈ items, settled search st.history i) →
    items.foldl (processItem search now subs) st =
      { st with checked := st.checked + items.length,
                events := st.events ++ items.map (fun i => Event.search i.id),
                errors := st.errors ++ items.filterMap (itemError search) } := by
  intro items
  induction items with
  | nil => intro st _; simp
  | cons i rest ih =>
    intro st h
    rw [List.foldl_cons, processItem_settled search now subs st i (h i (List.mem_cons_self _ _))]
    have hih := ih ⟨st.checked + 1, st.notified, st.errors ++ (itemError search i).toList,
      st.history, st.events ++ [Event.search i.id]⟩
      (fun j hj => h j (List.mem_cons_of_mem _ hj))
    rw [hih]
    cases he : itemError search i <;>
      simp [he, List.filterMap_cons, Nat.add_assoc, Nat.add_comm 1]

theorem foldl_establishes_settled (search : WatchlistItem → Except String (List Listing))
    (now : String) (subs : List Subscription) :
    ∀ (items : List WatchlistItem) (st : PassState),
    (items.map WatchlistItem.id).Nodup →
    ∀ i ∈ items, settled search (items.foldl (processItem search now subs) st).history i := by
  intro items
  induction items with
  | nil => intro st _ i hi; cases hi
  | cons j rest ih =>
    intro st hnd i hi
    rw [List.map_cons, List.nodup_cons] at hnd
    rw [List.foldl_cons]
    rcases List.mem_cons.mp hi with rfl | hmem
    · intro l ls hs hq
      have hji : ∀ x ∈ rest, x.id ≠ i.id := by
        intro x hx hEq
        exact hnd.1 (hEq ▸ List.mem_map_of_mem WatchlistItem.id hx)
      rw [foldl_history_untouched search now subs i.id rest _ hji]
      exact processItem_qualifying_lookup search now subs st i l ls hs hq
    · exact ih (processItem search now subs st j) hnd.2 i hmem

theorem foldl_checked (search : WatchlistItem → Except String (List Listing))
    (now : String) (subs : List Subscription) :
    ∀ (items : List WatchlistItem) (st : PassState),
    (items.foldl (processItem search now subs) st).checked = st.checked + items.length := by
  intro items
  induction items with
  | nil => intro st; simp
  | cons i rest ih =>
    intro st
    rw [List.foldl_cons, ih, processItem_checked]
    simp
    omega

theorem foldl_errors (search : WatchlistItem → Except String (List Listing))
    (now : String) (subs : List Subscription) :
    ∀ (items : List WatchlistItem) (st : PassState),
    (items.foldl (processItem search now subs) st).errors =
      st.errors ++ items.filterMap (itemError search) := by
  intro items
  induction items with
  | nil => intro st; simp
  | cons i rest ih =>
    intro st
    rw [List.foldl_cons, ih, processItem_errors]
    cases he : itemError search i <;> simp [he, List.filterMap_cons]

theorem foldl_notified_le (search : WatchlistItem → Except String (List Listing))
    (now : String) (subs : List Subscription) :
    ∀ (items : List WatchlistItem) (st : PassState),
    (items.foldl (processItem search now subs) st).notified ≤
      st.notified + items.countP (fun i => searchOk search i) := by
  intro items
  induction items with
  | nil => intro st; simp
  | cons i rest ih =>
    intro st
    rw [List.foldl_cons, List.countP_cons]
    refine le_trans (ih _) ?_
    rcases processItem_notified search now subs st i with hn | ⟨hn, hok⟩
    · rw [hn]; omega
    · rw [hn, hok]; simp; omega

theorem filter_no_match {α : Type} (p : α → Bool) (l : List α)
    (h : ∀ a ∈ l, p a = false) : l.filter p = [] := by
  induction l with
  | nil => rfl
  | cons a rest ih =>
    simp only [List.filter_cons, h a (List.mem_cons_self _ _)]
    exact ih (fun b hb => h b (List.mem_cons_of_mem _ hb))

theorem foldl_events_search (search : WatchlistItem → Except String (List Listing))
    (now : String) (subs : List Subscription) :
    ∀ (items : List WatchlistItem) (st : PassState),
    ((items.foldl (processItem search now subs) st).events).filter Event.isSearch =
      st.events.filter Event.isSearch ++ items.map (fun i => Event.search i.id) := by
  intro items
  induction items with
  | nil => intro st; simp
  | cons i rest ih =>
    intro st
    rw [List.foldl_cons, ih]
    rcases processItem_events_shape search now subs st i with heq | ⟨lid, heq⟩
    · rw [heq]
      simp [List.filter_append, Event.isSearch]
    · rw [heq]
      have hd : (subs.map (fun s => Event.dispatch s.endpoint i.id lid)).filter
          Event.isSearch = [] := by
        refine filter_no_match _ _ ?_
        intro a ha
        obtain ⟨s, _, rfl⟩ := List.mem_map.mp ha
        rfl
      simp [List.filter_append, Event.isSearch, hd]

theorem foldl_events_nowrite (search : WatchlistItem → Except String (List Listing))
    (now : String) (subs : List Subscription) :
    ∀ (items : List WatchlistItem) (st : PassState),
    ((items.foldl (processItem search now subs) st).events).filter Event.isWrite =
      st.events.filter Event.isWrite := by
  intro items
  induction items with
  | nil => intro st; simp
  | cons i rest ih =>
    intro st
    rw [List.foldl_cons, ih]
    rcases processItem_events_shape search now subs st i with heq | ⟨lid, heq⟩
    · rw [heq]
      simp [List.filter_append, Event.isWrite]
    · rw [heq]
      have hd : (subs.map (fun s => Event.dispatch s.endpoint i.id lid)).filter
          Event.isWrite = [] := by
        refine filter_no_match _ _ ?_
        intro a ha
        obtain ⟨s, _, rfl⟩ := List.mem_map.mp ha
        rfl
      simp [List.filter_append, Event.isWrite, hd]

theorem processItem_dispatch_eq (search : WatchlistItem → Except String (List Listing))
    (now : String) (subs : List Subscription) (st : PassState) (item : WatchlistItem)
    (l : Listing) (ls : List Listing)
    (hs : search item = .ok (l :: ls))
    (hq : (lowestListing l ls).price < item.targetPrice)
    (hnew : ∀ r, histLookup st.history item.id = some r →
      r.lastNotifiedListingId ≠ (lowestListing l ls).itemId) :
    processItem search now subs st item =
      { st with checked := st.checked + 1,
                notified := st.notified + 1,
                history := histInsert st.history item.id
                  { watchlistItemId := item.id,
                    lastNotifiedListingId := (lowestListing l ls).itemId,
                    lastNotifiedAt := now },
                events := st.events ++ Event.search item.id ::
                  subs.map (fun s =>
                    Event.dispatch s.endpoint item.id (lowestListing l ls).itemId) } := by
  unfold processItem
  rw [hs]
  simp only []
  rw [if_pos hq]
  cases hh : histLookup st.history item.id with
  | none => simp [hh]
  | some r => simp [hh, hnew r hh]

theorem processItem_suppress_eq (search : WatchlistItem → Except String (List Listing))
    (now : String) (subs : List Subscription) (st : PassState) (item : WatchlistItem)
    (l : Listing) (ls : List Listing)
    (hs : search item = .ok (l :: ls))
    (hq : (lowestListing l ls).price < item.targetPrice)
    (r : NotificationHistory)
    (hr : histLookup st.history item.id = some r)
    (heq : r.lastNotifiedListingId = (lowestListing l ls).itemId) :
    processItem search now subs st item =
      { st with checked := st.checked + 1,
                events := st.events ++ [Event.search item.id] } := by
  unfold processItem
  rw [hs]
  simp only []
  rw [if_pos hq, hr]
  simp [heq]

example :
    let item : WatchlistItem := ⟨"w1", "Lightning Bolt", "c1", 500, Scope.anyPrint, none, none, "t0"⟩
    let sub : Subscription := ⟨"ep1", "p", "a", none⟩
    let la : Listing := ⟨"A", "LB", 450, "u"⟩
    let lb : Listing := ⟨"B", "LB", 600, "u"⟩
    let r := checkPricesRun (fun _ => .ok [la, lb]) "t1" ⟨[item], [sub], []⟩
    r.notified = 1 ∧ histLookup r.store.history "w1" =
      some ⟨"w1", "A", "t1"⟩ := by decide

example :
    let item : WatchlistItem := ⟨"w1", "Lightning Bolt", "c1", 500, Scope.anyPrint, none, none, "t0"⟩
    let sub : Subscription := ⟨"ep1", "p", "a", none⟩
    let la : Listing := ⟨"A", "LB", 450, "u"⟩
    let r1 := checkPricesRun (fun _ => .ok [la]) "t1" ⟨[item], [sub], []⟩
    let r2 := checkPricesRun (fun _ => .ok [la]) "t2" r1.store
    r2.notified = 0 ∧ r2.store.history = r1.store.history := by decide

example :
    let item : WatchlistItem := ⟨"w1", "Lightning Bolt", "c1", 500, Scope.anyPrint, none, none, "t0"⟩
    let sub : Subscription := ⟨"ep1", "p", "a", none⟩
    let lc : Listing := ⟨"C", "LB", 300, "u"⟩
    let r := checkPricesRun (fun _ => .ok [lc]) "t3" ⟨[item], [sub], [("w1", ⟨"w1", "A", "t1"⟩)]⟩
    r.notified = 1 ∧ histLookup r.store.history "w1" = some ⟨"w1", "C", "t3"⟩ := by decide

theorem countP_isDispatch_searchmap (items : List WatchlistItem) :
    (items.map (fun i => Event.search i.id)).countP Event.isDispatch = 0 := by
  rw [List.countP_eq_zero]
  intro a ha
  obtain ⟨i, _, rfl⟩ := List.mem_map.mp ha
  simp [Event.isDispatch]

/-! ### Claim theorems -/

/-- Claim C1 (counterexample): the reconciliation pass does NOT treat a
cheapest listing priced exactly at `targetPrice` as qualifying — the
code compares with strict `<` (check-prices line 239). With one watch
item at target 500, one subscription, no prior record, and the single
listing priced exactly 500, the pass notifies nobody, dispatches no
push, and creates no `NotificationRecord`. -/
theorem price_equal_target_no_notification :
    let r := checkPricesRun
      (fun _ => .ok [⟨"L1", "Black Lotus MTG", 500, "u"⟩]) "t1"
      ⟨[⟨"w1", "Black Lotus", "c1", 500, Scope.anyPrint, none, none, "t0"⟩],
       [⟨"ep1", "p", "a", none⟩], []⟩
    r.notified = 0 ∧ r.events.countP Event.isDispatch = 0 ∧
      histLookup r.store.history "w1" = none := by
  decide

/-- Claim C1 (amended): the per-item reconciliation step qualifies the
cheapest listing only when its price is STRICTLY below `targetPrice`;
in that case, with no prior `NotificationRecord`, it dispatches one
notification per subscription and records that listing's id. (The
separate `checkAlert` helper of `check-alerts` is the variant using
the inclusive `price ≤ targetPrice` comparison.) -/
theorem strict_below_target_notifies
    (search : WatchlistItem → Except String (List Listing)) (now : String)
    (subs : List Subscription) (st : PassState) (item : WatchlistItem)
    (l : Listing) (ls : List Listing)
    (hs : search item = .ok (l :: ls))
    (hq : (lowestListing l ls).price < item.targetPrice)
    (hh : histLookup st.history item.id = none) :
    (processItem search now subs st item).notified = st.notified + 1 ∧
    (processItem search now subs st item).history =
      histInsert st.history item.id
        { watchlistItemId := item.id,
          lastNotifiedListingId := (lowestListing l ls).itemId,
          lastNotifiedAt := now } ∧
    (processItem search now subs st item).events =
      st.events ++ Event.search item.id ::
        subs.map (fun s => Event.dispatch s.endpoint item.id (lowestListing l ls).itemId) ∧
    (∀ (alert : PriceAlert) (listing : Listing) (rest : List Listing),
      listing.price ≤ alert.targetPrice →
      checkAlert alert (listing :: rest) =
        some { listing := listing, alert := alert, price := listing.price }) := by
  have hstep := processItem_dispatch_eq search now subs st item l ls hs hq
    (fun r hr => by rw [hh] at hr; cases hr)
  rw [hstep]
  refine ⟨rfl, rfl, rfl, ?_⟩
  intro alert listing rest hle
  unfold checkAlert
  rw [if_pos hle]

/-- Claim C1 (witness for the amended theorem). -/
theorem strict_below_target_notifies_witness :
    (processItem (fun _ => .ok [⟨"A", "t", 450, "u"⟩]) "t1" [⟨"ep", "p", "a", none⟩]
      ⟨0, 0, [], [], []⟩
      ⟨"w1", "Bolt", "c1", 500, Scope.anyPrint, none, none, "t0"⟩).notified = 0 + 1 := by
  have h := strict_below_target_notifies (fun _ => .ok [⟨"A", "t", 450, "u"⟩]) "t1"
    [⟨"ep", "p", "a", none⟩] ⟨0, 0, [], [], []⟩
    ⟨"w1", "Bolt", "c1", 500, Scope.anyPrint, none, none, "t0"⟩
    ⟨"A", "t", 450, "u"⟩ [] rfl (by decide) rfl
  exact h.1

/-- Claim C2: for a watch item with a qualifying cheapest listing
(price strictly below target, as the code compares), the step
dispatches per subscription and overwrites the record exactly when the
previously recorded `lastNotifiedListingId` differs from (or no record
exists for) the current listing's id; when they are equal the item is
suppressed and the history, notified count and dispatch trace are left
unchanged. -/
theorem qualifying_notifies_iff_new_listing
    (search : WatchlistItem → Except String (List Listing)) (now : String)
    (subs : List Subscription) (st : PassState) (item : WatchlistItem)
    (l : Listing) (ls : List Listing)
    (hs : search item = .ok (l :: ls))
    (hq : (lowestListing l ls).price < item.targetPrice) :
    (((processItem search now subs st item).notified = st.notified + 1 ∧
      (processItem search now subs st item).history =
        histInsert st.history item.id
          { watchlistItemId := item.id,
            lastNotifiedListingId := (lowestListing l ls).itemId,
            lastNotifiedAt := now } ∧
      (processItem search now subs st item).events =
        st.events ++ Event.search item.id ::
          subs.map (fun s => Event.dispatch s.endpoint item.id (lowestListing l ls).itemId))
      ↔ ¬ ∃ r, histLookup st.history item.id = some r ∧
            r.lastNotifiedListingId = (lowestListing l ls).itemId) ∧
    (∀ r, histLookup st.history item.id = some r →
      r.lastNotifiedListingId = (lowestListing l ls).itemId →
      (processItem search now subs st item).notified = st.notified ∧
      (processItem search now subs st item).history = st.history ∧
      (processItem search now subs st item).events = st.events ++ [Event.search item.id]) := by
  constructor
  · constructor
    · rintro ⟨hn, _, _⟩ ⟨r, hr, hid⟩
      have hstep := processItem_suppress_eq search now subs st item l ls hs hq r hr hid
      rw [hstep] at hn
      simp at hn
    · intro hnone
      have hnew : ∀ r, histLookup st.history item.id = some r →
          r.lastNotifiedListingId ≠ (lowestListing l ls).itemId := by
        intro r hr hid
        exact hnone ⟨r, hr, hid⟩
      have hstep := processItem_dispatch_eq search now subs st item l ls hs hq hnew
      rw [hstep]
      exact ⟨rfl, rfl, rfl⟩
  · intro r hr hid
    have hstep := processItem_suppress_eq search now subs st item l ls hs hq r hr hid
    rw [hstep]
    exact ⟨rfl, rfl, rfl⟩

/-- Claim C2 (witness): suppressed case at a concrete input. -/
theorem qualifying_notifies_iff_new_listing_witness :
    (processItem (fun _ => .ok [⟨"A", "t", 450, "u"⟩]) "t2" [⟨"ep", "p", "a", none⟩]
      ⟨0, 0, [], [("w1", ⟨"w1", "A", "t1"⟩)], []⟩
      ⟨"w1", "Bolt", "c1", 500, Scope.anyPrint, none, none, "t0"⟩).notified = 0 := by
  have h := qualifying_notifies_iff_new_listing (fun _ => .ok [⟨"A", "t", 450, "u"⟩]) "t2"
    [⟨"ep", "p", "a", none⟩] ⟨0, 0, [], [("w1", ⟨"w1", "A", "t1"⟩)], []⟩
    ⟨"w1", "Bolt", "c1", 500, Scope.anyPrint, none, none, "t0"⟩
    ⟨"A", "t", 450, "u"⟩ [] rfl (by decide)
  exact (h.2 ⟨"w1", "A", "t1"⟩ rfl rfl).1

/-- Claim C3: running the pass twice with the same marketplace search
results, watchlist and subscriptions (watch items having distinct ids,
as the id-keyed stores guarantee) is idempotent — the second pass
notifies nobody, dispatches nothing, and leaves the notification
history exactly as the first pass produced it. -/
theorem double_pass_idempotent
    (search : WatchlistItem → Except String (List Listing)) (now now' : String)
    (store : Store)
    (hnd : (store.watchlist.map WatchlistItem.id).Nodup) :
    (checkPricesRun search now' (checkPricesRun search now store).store).notified = 0 ∧
    (checkPricesRun search now' (checkPricesRun search now store).store).store.history =
      (checkPricesRun search now store).store.history ∧
    ((checkPricesRun search now' (checkPricesRun search now store).store).events).countP
      Event.isDispatch = 0 := by
  by_cases hw : store.watchlist = []
  · simp [checkPricesRun, hw]
  · by_cases hsub : store.subscriptions = []
    · simp [checkPricesRun, hw, hsub]
    · have hset : ∀ i ∈ store.watchlist,
          settled search ((store.watchlist.foldl (processItem search now store.subscriptions)
            ⟨0, 0, [], store.history, []⟩).history) i :=
        foldl_establishes_settled search now store.subscriptions store.watchlist
          ⟨0, 0, [], store.history, []⟩ hnd
      have hnoop := foldl_settled_noop search now' store.subscriptions store.watchlist
        ⟨0, 0, [], (store.watchlist.foldl (processItem search now store.subscriptions)
            ⟨0, 0, [], store.history, []⟩).history, []⟩ hset
      simp only [checkPricesRun, if_neg hw, if_neg hsub]
      rw [hnoop]
      refine ⟨rfl, rfl, ?_⟩
      simp [List.countP_append, countP_isDispatch_searchmap, Event.isDispatch]

/-- Claim C3 (witness). -/
theorem double_pass_idempotent_witness :
    (checkPricesRun (fun _ => .ok [⟨"A", "t", 450, "u"⟩]) "t2"
      ((checkPricesRun (fun _ => .ok [⟨"A", "t", 450, "u"⟩]) "t1"
        ⟨[⟨"w1", "Bolt", "c1", 500, Scope.anyPrint, none, none, "t0"⟩],
         [⟨"ep", "p", "a", none⟩], []⟩).store)).notified = 0 := by
  have h := double_pass_idempotent (fun _ => .ok [⟨"A", "t", 450, "u"⟩]) "t1" "t2"
    ⟨[⟨"w1", "Bolt", "c1", 500, Scope.anyPrint, none, none, "t0"⟩],
     [⟨"ep", "p", "a", none⟩], []⟩ (by decide)
  exact h.1

/-- Claim C4 (counterexample): a marketplace-authentication failure is
NOT a top-level abort — with two watch items and a subscription, the
pass runs to completion, records one per-item diagnostic per item, and
returns the normal summary (no error message, `checked = 2`); and a
failed subscription load is treated as an empty list, producing the
plain empty-subscriptions short-circuit rather than a top-level error. -/
theorem auth_failure_is_per_item_diagnostic :
    (let r := checkPricesRun
        (cronSearch (.failure "invalid_client") (fun _ => .ok [])) "t1"
        ⟨[⟨"w1", "Bolt", "c1", 500, Scope.anyPrint, none, none, "t0"⟩,
          ⟨"w2", "Lotus", "c2", 900, Scope.anyPrint, none, none, "t0"⟩],
         [⟨"ep", "p", "a", none⟩], []⟩
     r.checked = 2 ∧ r.notified = 0 ∧ r.message = none ∧
       r.errors =
        ["Error checking Bolt: Failed to get eBay token: invalid_client",
         "Error checking Lotus: Failed to get eBay token: invalid_client"]) ∧
    loadSubscriptions (.otherError "EACCES") = [] ∧
    (checkPricesRun (fun _ => .ok []) "t1"
      ⟨[⟨"w1", "Bolt", "c1", 500, Scope.anyPrint, none, none, "t0"⟩],
       loadSubscriptions (.otherError "EACCES"), []⟩).message =
      some "No push notification subscriptions found" := by
  decide

/-- Claim C4 (amended): none of the named conditions aborts the pass,
and each yields zero notifications: an unreadable watchlist or
subscription file loads as the empty list, making the pass return the
`checked = 0`, `notified = 0` short-circuit with no side effects; a
token failure is caught per item, appending one diagnostic per watch
item while the pass continues through every item, dispatching nothing
and leaving the history unchanged. -/
theorem load_and_auth_failures_never_abort
    (fetch : String → Except String (List Listing)) (now : String) (e : String)
    (wl : List WatchlistItem) (subs : List Subscription) (hist : HistMap)
    (hw : wl ≠ []) (hsub : subs ≠ []) :
    (loadSubscriptions (.otherError e) = [] ∧ getAllWatchlistItems (.otherError e) = []) ∧
    (∀ s : WatchlistItem → Except String (List Listing),
      (checkPricesRun s now ⟨wl, [], hist⟩).notified = 0 ∧
      (checkPricesRun s now ⟨wl, [], hist⟩).checked = 0 ∧
      (checkPricesRun s now ⟨wl, [], hist⟩).events = []) ∧
    ((checkPricesRun (cronSearch (.failure e) fetch) now ⟨wl, subs, hist⟩).notified = 0 ∧
     (checkPricesRun (cronSearch (.failure e) fetch) now ⟨wl, subs, hist⟩).checked =
       wl.length ∧
     (checkPricesRun (cronSearch (.failure e) fetch) now ⟨wl, subs, hist⟩).errors =
       wl.map (fun i =>
         "Error checking " ++ i.cardName ++ ": " ++ ("Failed to get eBay token: " ++ e)) ∧
     (checkPricesRun (cronSearch (.failure e) fetch) now ⟨wl, subs, hist⟩).store.history =
       hist ∧
     ((checkPricesRun (cronSearch (.failure e) fetch) now
         ⟨wl, subs, hist⟩).events).countP Event.isDispatch = 0) := by
  refine ⟨⟨rfl, rfl⟩, ?_, ?_⟩
  · intro s
    simp only [checkPricesRun, if_neg hw]
    simp
  · have hset : ∀ i ∈ wl, settled (cronSearch (.failure e) fetch) hist i := by
      intro i _ l ls hs
      simp [cronSearch, searchEbayBuyItNow] at hs
    have hnoop := foldl_settled_noop (cronSearch (.failure e) fetch) now subs wl
      ⟨0, 0, [], hist, []⟩ hset
    have herr : itemError (cronSearch (.failure e) fetch) =
        some ∘ (fun i : WatchlistItem =>
          "Error checking " ++ i.cardName ++ ": " ++ ("Failed to get eBay token: " ++ e)) :=
      funext fun i => rfl
    simp only [checkPricesRun, if_neg hw, if_neg hsub]
    rw [hnoop]
    refine ⟨rfl, by simp, ?_, rfl, ?_⟩
    · rw [herr, List.filterMap_eq_map]
      simp
    · simp [List.countP_append, countP_isDispatch_searchmap, Event.isDispatch]

/-- Claim C4 (witness for the amended theorem). -/
theorem load_and_auth_failures_never_abort_witness :
    (checkPricesRun (cronSearch (.failure "boom") (fun _ => .ok [])) "t1"
      ⟨[⟨"w1", "Bolt", "c1", 500, Scope.anyPrint, none, none, "t0"⟩],
       [⟨"ep", "p", "a", none⟩], []⟩).notified = 0 := by
  have h := load_and_auth_failures_never_abort (fun _ => .ok []) "t1" "boom"
    [⟨"w1", "Bolt", "c1", 500, Scope.anyPrint, none, none, "t0"⟩]
    [⟨"ep", "p", "a", none⟩] [] (by decide) (by decide)
  exact h.2.2.1

/-- Claim C5: every per-item failure is caught — the pass records
exactly one diagnostic per failing item (in order), still counts the
item as checked, keeps processing every watch item (one search event
per item), and failed items never contribute to `notified`. -/
theorem per_item_failures_do_not_abort
    (search : WatchlistItem → Except String (List Listing)) (now : String) (store : Store)
    (hw : store.watchlist ≠ []) (hsub : store.subscriptions ≠ []) :
    (checkPricesRun search now store).checked = store.watchlist.length ∧
    (checkPricesRun search now store).errors =
      store.watchlist.filterMap (itemError search) ∧
    (checkPricesRun search now store).notified ≤
      store.watchlist.countP (fun i => searchOk search i) ∧
    ((checkPricesRun search now store).events).filter Event.isSearch =
      store.watchlist.map (fun i => Event.search i.id) := by
  simp only [checkPricesRun, if_neg hw, if_neg hsub]
  refine ⟨?_, ?_, ?_, ?_⟩
  · rw [foldl_checked]
    simp
  · rw [foldl_errors]
    simp
  · have := foldl_notified_le search now store.subscriptions store.watchlist
      ⟨0, 0, [], store.history, []⟩
    simpa using this
  · rw [List.filter_append, foldl_events_search]
    simp [Event.isSearch]

/-- Claim C5 (witness). -/
theorem per_item_failures_do_not_abort_witness :
    (checkPricesRun (fun i => if i.id == "w1" then .error "boom" else .ok []) "t1"
      ⟨[⟨"w1", "Bolt", "c1", 500, Scope.anyPrint, none, none, "t0"⟩,
        ⟨"w2", "Lotus", "c2", 900, Scope.anyPrint, none, none, "t0"⟩],
       [⟨"ep", "p", "a", none⟩], []⟩).checked = 2 := by
  have h := per_item_failures_do_not_abort
    (fun i => if i.id == "w1" then .error "boom" else .ok []) "t1"
    ⟨[⟨"w1", "Bolt", "c1", 500, Scope.anyPrint, none, none, "t0"⟩,
      ⟨"w2", "Lotus", "c2", 900, Scope.anyPrint, none, none, "t0"⟩],
     [⟨"ep", "p", "a", none⟩], []⟩ (by decide) (by decide)
  simpa using h.1

/-- Claim C9: a reconciliation pass leaves the watchlist and
subscription stores untouched; the only persistent write it can emit
is the notification-history bulk write, at most once, and when it
occurs it is the final action of the pass. -/
theorem pass_reads_only_writes_history_once
    (search : WatchlistItem → Except String (List Listing)) (now : String) (store : Store) :
    (checkPricesRun search now store).store.watchlist = store.watchlist ∧
    (checkPricesRun search now store).store.subscriptions = store.subscriptions ∧
    (((checkPricesRun search now store).events).filter Event.isWrite = [] ∨
      (((checkPricesRun search now store).events).filter Event.isWrite =
          [Event.writeHistory] ∧
        ((checkPricesRun search now store).events).getLast? = some Event.writeHistory)) := by
  by_cases hw : store.watchlist = []
  · simp [checkPricesRun, hw]
  · by_cases hsub : store.subscriptions = []
    · simp [checkPricesRun, hw, hsub]
    · simp only [checkPricesRun, if_neg hw, if_neg hsub]
      refine ⟨by simp, by simp, Or.inr ⟨?_, ?_⟩⟩
      · rw [List.filter_append, foldl_events_nowrite]
        simp [Event.isWrite]
      · exact List.getLast?_concat _

/-- Claim C10: with an empty subscription list (or an empty
watchlist), the pass returns immediately with `checked = 0` and
`notified = 0`, performing no searches, no dispatches, and no
persistent write — the store is returned unchanged. -/
theorem empty_inputs_short_circuit
    (search : WatchlistItem → Except String (List Listing)) (now : String) (store : Store)
    (h : store.subscriptions = [] ∨ store.watchlist = []) :
    (checkPricesRun search now store).checked = 0 ∧
    (checkPricesRun search now store).notified = 0 ∧
    (checkPricesRun search now store).events = [] ∧
    (checkPricesRun search now store).store = store := by
  by_cases hw : store.watchlist = []
  · simp [checkPricesRun, hw]
  · rcases h with hsub | hw'
    · simp [checkPricesRun, hw, hsub]
    · exact absurd hw' hw

/-- Claim C10 (witness): non-empty watchlist, empty subscriptions. -/
theorem empty_inputs_short_circuit_witness :
    (checkPricesRun (fun _ => .ok [⟨"A", "t", 450, "u"⟩]) "t1"
      ⟨[⟨"w1", "Bolt", "c1", 500, Scope.anyPrint, none, none, "t0"⟩], [], []⟩).checked = 0 ∧
    (checkPricesRun (fun _ => .ok [⟨"A", "t", 450, "u"⟩]) "t1"
      ⟨[⟨"w1", "Bolt", "c1", 500, Scope.anyPrint, none, none, "t0"⟩], [], []⟩).events = [] := by
  have h := empty_inputs_short_circuit (fun _ => .ok [⟨"A", "t", 450, "u"⟩]) "t1"
    ⟨[⟨"w1", "Bolt", "c1", 500, Scope.anyPrint, none, none, "t0"⟩], [], []⟩ (Or.inl rfl)
  exact ⟨h.1, h.2.2.1⟩

/-- Claim C6: the cached token variant returns the cached token with
no credential exchange whenever the recorded expiry (set at caching
time to fetch-time plus `expires_in` minus the 60-second margin) is
still in the future; otherwise it performs the exchange, caches the
token and computed expiry and returns it, and on exchange failure it
clears the cached token and expiry and propagates the failure. -/
theorem token_cache_contract (st : TokenCache) (now : Int) (exchange : OAuthOutcome) :
    ((∃ t, st.cachedToken = some t ∧ st.tokenExpiry > now) →
      (getEbayAccessToken st now exchange).performedExchange = false ∧
      (getEbayAccessToken st now exchange).cache = st ∧
      ∀ t, st.cachedToken = some t →
        (getEbayAccessToken st now exchange).result = .ok t) ∧
    ((∀ t, st.cachedToken = some t → st.tokenExpiry ≤ now) →
      (getEbayAccessToken st now exchange).performedExchange = true ∧
      (∀ tok ei, exchange = .ok tok ei →
        (getEbayAccessToken st now exchange).result = .ok tok ∧
        (getEbayAccessToken st now exchange).cache =
          ⟨some tok, now + (ei - 60) * 1000⟩) ∧
      (∀ m, exchange = .err m →
        (getEbayAccessToken st now exchange).result = .error m ∧
        (getEbayAccessToken st now exchange).cache = ⟨none, 0⟩)) := by
  constructor
  · rintro ⟨t, ht, hexp⟩
    refine ⟨?_, ?_, ?_⟩ <;>
      simp [getEbayAccessToken, ht, hexp]
  · intro hmiss
    cases hc : st.cachedToken with
    | none =>
      cases exchange <;>
        simp [getEbayAccessToken, ebayTokenExchange, hc]
    | some t =>
      have hle : ¬ st.tokenExpiry > now := by
        have := hmiss t hc
        omega
      cases exchange <;>
        simp [getEbayAccessToken, ebayTokenExchange, hc, hle]

/-- Claim C6 (witness): an unexpired cached token short-circuits the
exchange even when the exchange would fail. -/
theorem token_cache_contract_witness :
    (getEbayAccessToken ⟨some "t0", 100⟩ 50 (.err "down")).result = .ok "t0" ∧
    (getEbayAccessToken ⟨some "t0", 100⟩ 50 (.err "down")).performedExchange = false := by
  have h := token_cache_contract ⟨some "t0", 100⟩ 50 (.err "down")
  have hc := h.1 ⟨"t0", rfl, by decide⟩
  exact ⟨hc.2.2 "t0" rfl, hc.1⟩

theorem upsertSubscription_cons (a : Subscription) (rest : List Subscription)
    (inc : Subscription) (now : String) :
    upsertSubscription (a :: rest) inc now =
      if a.endpoint == inc.endpoint then { inc with createdAt := some now } :: rest
      else a :: upsertSubscription rest inc now := by
  unfold upsertSubscription
  rw [List.findIdx?_cons]
  by_cases hp : (a.endpoint == inc.endpoint) = true
  · simp [hp]
  · rw [if_neg hp, List.findIdx?_succ]
    rw [if_neg (by simpa using hp)]
    cases hf : List.findIdx? (fun sub => sub.endpoint == inc.endpoint) rest with
    | none => simp [hf]
    | some i => simp [hf, List.set]

theorem mem_endpoint_upsert (subs : List Subscription) (inc : Subscription) (now : String)
    (x : String) (hx : x ∈ (upsertSubscription subs inc now).map Subscription.endpoint) :
    x = inc.endpoint ∨ x ∈ subs.map Subscription.endpoint := by
  induction subs with
  | nil =>
    simp [upsertSubscription] at hx
    exact Or.inl hx
  | cons a rest ih =>
    rw [upsertSubscription_cons] at hx
    by_cases hp : (a.endpoint == inc.endpoint) = true
    · rw [if_pos hp] at hx
      rcases List.mem_map.mp hx with ⟨s, hs, rfl⟩
      rcases List.mem_cons.mp hs with rfl | hmem
      · exact Or.inl rfl
      · exact Or.inr (by simp; exact Or.inr ⟨s, hmem, rfl⟩)
    · rw [if_neg hp] at hx
      rcases List.mem_map.mp hx with ⟨s, hs, rfl⟩
      rcases List.mem_cons.mp hs with rfl | hmem
      · exact Or.inr (by simp)
      · rcases ih (List.mem_map_of_mem Subscription.endpoint hmem) with h | h
        · exact Or.inl h
        · exact Or.inr (by simp at h ⊢; exact Or.inr h)

/-- Claim C7 (counterexample): the file-backed subscription endpoint
appends unconditionally — registering the same endpoint twice stores
two records with that endpoint, so the at-most-one-record-per-endpoint
property fails for it. -/
theorem file_subscribe_duplicates_endpoint :
    ¬ (((appendSubscription
          (appendSubscription [] ⟨"ep", "p", "a", none⟩ "t1")
          ⟨"ep", "p", "a", none⟩ "t2").map Subscription.endpoint).Nodup) := by
  decide

/-- Claim C7 (amended): the Redis-backed registration endpoint does
upsert by endpoint — it preserves endpoint uniqueness, replaces in
place (same length) when the endpoint is already present, and appends
exactly one record when it is not; the file-backed variant instead
appends unconditionally. -/
theorem redis_subscribe_upserts_by_endpoint
    (subs : List Subscription) (inc : Subscription) (now : String)
    (hnd : (subs.map Subscription.endpoint).Nodup) :
    ((upsertSubscription subs inc now).map Subscription.endpoint).Nodup ∧
    ((∃ s ∈ subs, s.endpoint = inc.endpoint) →
      (upsertSubscription subs inc now).length = subs.length) ∧
    ((∀ s ∈ subs, s.endpoint ≠ inc.endpoint) →
      upsertSubscription subs inc now = subs ++ [{ inc with createdAt := some now }]) ∧
    (∀ sub : Subscription,
      appendSubscription subs sub now = subs ++ [{ sub with createdAt := some now }]) := by
  refine ⟨?_, ?_, ?_, fun sub => rfl⟩
  · induction subs with
    | nil => simp [upsertSubscription]
    | cons a rest ih =>
      rw [List.map_cons, List.nodup_cons] at hnd
      rw [upsertSubscription_cons]
      by_cases hp : (a.endpoint == inc.endpoint) = true
      · rw [if_pos hp]
        have he : a.endpoint = inc.endpoint := by simpa using hp
        simp only [List.map_cons, List.nodup_cons]
        exact ⟨by rw [← he]; exact hnd.1, hnd.2⟩
      · rw [if_neg hp]
        simp only [List.map_cons, List.nodup_cons]
        refine ⟨?_, ih hnd.2⟩
        intro hmem
        rcases mem_endpoint_upsert rest inc now a.endpoint hmem with h | h
        · exact hp (beq_iff_eq.mpr h)
        · exact hnd.1 h
  · rintro ⟨s, hs, hse⟩
    induction subs with
    | nil => cases hs
    | cons a rest ih =>
      rw [upsertSubscription_cons]
      by_cases hp : (a.endpoint == inc.endpoint) = true
      · rw [if_pos hp]; simp
      · rw [if_neg hp]
        rcases List.mem_cons.mp hs with rfl | hmem
        · exact absurd (by simpa using hse) (by simpa using hp)
        · have := ih (by
            rw [List.map_cons, List.nodup_cons] at hnd
            exact hnd.2) hmem
          simp [this]
  · intro hall
    induction subs with
    | nil => rfl
    | cons a rest ih =>
      rw [upsertSubscription_cons]
      have hp : (a.endpoint == inc.endpoint) = false := by
        simpa using hall a (List.mem_cons_self _ _)
      rw [if_neg (by simp [hp])]
      have := ih (by
        rw [List.map_cons, List.nodup_cons] at hnd
        exact hnd.2) (fun s hs => hall s (List.mem_cons_of_mem _ hs))
      simp [this]

/-- Claim C7 (witness for the amended theorem). -/
theorem redis_subscribe_upserts_by_endpoint_witness :
    (upsertSubscription [⟨"ep", "p0", "a0", some "t0"⟩] ⟨"ep", "p1", "a1", none⟩
      "t1").length = 1 := by
  have h := redis_subscribe_upserts_by_endpoint [⟨"ep", "p0", "a0", some "t0"⟩]
    ⟨"ep", "p1", "a1", none⟩ "t1" (by decide)
  exact h.2.1 ⟨⟨"ep", "p0", "a0", some "t0"⟩, List.mem_cons_self _ _, rfl⟩

/-- Claim C8: watch-item creation rejects any request with a missing
or non-positive target price, and any request with specific scope but
a missing (or empty) set name or collector number; when creation
succeeds the new item is appended and, assuming every previously
stored item satisfied the data-model invariant, every stored item
still does (`targetPrice > 0`, and specific scope implies both the
set name and the collector number are present). -/
theorem save_enforces_watch_item_invariant
    (body : SaveBody) (stored : List WatchlistItem) (newId now : String)
    (hstored : ∀ i ∈ stored, watchItemInvariant i) :
    ((∀ tp, body.targetPrice = some tp → tp ≤ 0) →
      ∃ e, watchlistSavePOST body stored newId now = .badRequest e) ∧
    (body.scope = some "specific" →
      (strFalsy body.setName = true ∨ strFalsy body.collectorNumber = true) →
      ∃ e, watchlistSavePOST body stored newId now = .badRequest e) ∧
    (∀ items item, watchlistSavePOST body stored newId now = .ok items item →
      items = stored ++ [item] ∧ ∀ i ∈ items, watchItemInvariant i) := by
  refine ⟨?_, ?_, ?_⟩
  · intro htp
    unfold watchlistSavePOST
    by_cases h1 : strBlank body.cardName = true
    · exact ⟨_, by rw [if_pos h1]⟩
    · rw [if_neg h1]
      by_cases h2 : strBlank body.cardId = true
      · exact ⟨_, by rw [if_pos h2]⟩
      · rw [if_neg h2]
        have h3 : numFalsyOrNonpos body.targetPrice = true := by
          unfold numFalsyOrNonpos
          cases hb : body.targetPrice with
          | none => rfl
          | some n => simpa using htp n hb
        exact ⟨_, by rw [if_pos h3]⟩
  · intro hsc hmiss
    unfold watchlistSavePOST
    by_cases h1 : strBlank body.cardName = true
    · exact ⟨_, by rw [if_pos h1]⟩
    · rw [if_neg h1]
      by_cases h2 : strBlank body.cardId = true
      · exact ⟨_, by rw [if_pos h2]⟩
      · rw [if_neg h2]
        by_cases h3 : numFalsyOrNonpos body.targetPrice = true
        · exact ⟨_, by rw [if_pos h3]⟩
        · rw [if_neg h3]
          have h4 : ¬ ((body.scope != some "specific" &&
              body.scope != some "any") = true) := by
            simp [hsc]
          rw [if_neg h4]
          have h5 : (body.scope == some "specific" &&
              (strFalsy body.setName || strFalsy body.collectorNumber)) = true := by
            rcases hmiss with hm | hm <;> simp [hsc, hm]
          exact ⟨_, by rw [if_pos h5]⟩
  · intro items item hok
    unfold watchlistSavePOST at hok
    by_cases h1 : strBlank body.cardName = true
    · rw [if_pos h1] at hok; cases hok
    · rw [if_neg h1] at hok
      by_cases h2 : strBlank body.cardId = true
      · rw [if_pos h2] at hok; cases hok
      · rw [if_neg h2] at hok
        by_cases h3 : numFalsyOrNonpos body.targetPrice = true
        · rw [if_pos h3] at hok; cases hok
        · rw [if_neg h3] at hok
          by_cases h4 : (body.scope != some "specific" &&
              body.scope != some "any") = true
          · rw [if_pos h4] at hok; cases hok
          · rw [if_neg h4] at hok
            by_cases h5 : (body.scope == some "specific" &&
                (strFalsy body.setName || strFalsy body.collectorNumber)) = true
            · rw [if_pos h5] at hok; cases hok
            · rw [if_neg h5] at hok
              simp only [addWatchlistItem] at hok
              obtain ⟨hitems, hitem⟩ := SaveResponse.ok.inj hok
              subst hitem
              have htp : 0 < body.targetPrice.getD 0 := by
                unfold numFalsyOrNonpos at h3
                cases hb : body.targetPrice with
                | none => rw [hb] at h3; exact absurd rfl h3
                | some n =>
                  rw [hb] at h3
                  simp at h3 ⊢
                  omega
              constructor
              · exact hitems.symm
              · intro i hi
                rw [← hitems] at hi
                rcases List.mem_append.mp hi with hmem | hnew
                · exact hstored i hmem
                · have hieq := List.mem_singleton.mp hnew
                  subst hieq
                  constructor
                  · exact htp
                  · intro hspec
                    by_cases hsc : (body.scope == some "specific") = true
                    · rw [if_pos (by simp [hsc])] at hspec ⊢
                      have h5' := h5
                      rw [hsc] at h5'
                      simp at h5'
                      simp [if_pos hsc]
                      exact h5'
                    · exfalso
                      rw [if_neg (by simp [hsc])] at hspec
                      simp at hspec

/-- Claim C8 (witness). -/
theorem save_enforces_watch_item_invariant_witness :
    ∃ e, watchlistSavePOST
      ⟨some "Bolt", some "c1", some 500, some "specific", some "Alpha", none⟩
      [] "id1" "t1" = .badRequest e := by
  have h := save_enforces_watch_item_invariant
    ⟨some "Bolt", some "c1", some 500, some "specific", some "Alpha", none⟩
    [] "id1" "t1" (by intro i hi; cases hi)
  exact h.2.1 rfl (Or.inr rfl)

end MtgPriceChecker
